import Mathlib

/-!
Verification of the Entry Registry, Persistence Store and Launch Strategy
Resolver of `Launcher_main.py` (a desktop shortcut launcher).

The embedding is shallow: each Python function relevant to the claims is
translated into an executable Lean definition over explicit state.
-/

set_option maxHeartbeats 1000000

namespace Launcher

/-- The `LauncherEntry` dataclass (`Launcher_main.py`, lines 53-59).
All five fields are declared `str` in the source; the registry only ever
stores string values in them. -/
structure LauncherEntry where
  id : String
  name : String
  path : String
  description : String := ""
  entry_type : String := "app"
  deriving Repr, DecidableEq

/-- Python dict lookup `{e.id: e for e in entries}[eid]`: a dict
comprehension keeps the LAST entry written for a key, so lookup returns the
last entry in the list whose `id` equals `eid`
(`Launcher_main.py`, line 613). -/
def idToEntry (entries : List LauncherEntry) (eid : String) : Option LauncherEntry :=
  entries.reverse.find? (fun e => e.id = eid)

/-- Outcome of `MainWindow._save_current_order`: the registry sequence it
leaves in `self.entries`, whether `save_entries` was invoked, and whether
`_refresh_list` was invoked (the resynchronization path). -/
structure ReorderOutcome where
  entries : List LauncherEntry
  saved : Bool
  refreshed : Bool
  deriving Repr, DecidableEq

/-- `MainWindow._save_current_order` (`Launcher_main.py`, lines 590-619),
with `orderedIds` standing for the id sequence read off the QListWidget.

* `missing_ids = original_ids - ordered_ids_set`; if non-empty, the list is
  rebuilt (`_refresh_list`) and the method returns without saving.
* if `len(ordered_ids) != len(set(ordered_ids))` (a duplicate id), return
  without saving — `dedup` plays the role of `set(...)`.
* otherwise re-project: `new_entries = [id_to_entry[eid] for eid in
  ordered_ids if eid in id_to_entry]`, and only if the resulting length
  equals the current length assign `self.entries` and `save_entries`. -/
def saveCurrentOrder (entries : List LauncherEntry) (orderedIds : List String) :
    ReorderOutcome :=
  let originalIds := entries.map (·.id)
  let missingIds := originalIds.filter (fun i => ¬ i ∈ orderedIds)
  if missingIds ≠ [] then
    ⟨entries, false, true⟩
  else if orderedIds.length ≠ orderedIds.dedup.length then
    ⟨entries, false, false⟩
  else
    let newEntries := orderedIds.filterMap (fun eid => idToEntry entries eid)
    if newEntries.length = entries.length then
      ⟨newEntries, true, false⟩
    else
      ⟨entries, false, false⟩

/-! ### Persisted document model

`save_entries` writes `{"entries": [asdict(e), ...]}` through `json.dump`
and `load_entries` reads it back through `json.load`; persistence is
modelled at the JSON-value level (the text encoding is faithful for these
values). -/

/-- JSON values as produced by Python's `json.load`. -/
inductive Json where
  | null
  | bool (b : Bool)
  | num (n : Int)
  | str (s : String)
  | arr (items : List Json)
  | obj (fields : List (String × Json))

/-- Python dict lookup on a JSON object. `json.load` builds a `dict`, in
which a repeated key keeps its last value, so lookup returns the last
binding of `k`. -/
def getField (fields : List (String × Json)) (k : String) : Option Json :=
  (fields.reverse.find? (fun p => p.1 = k)).map (·.2)

/-- `true` exactly on `Json.str` values. -/
def Json.isStr : Json → Bool
  | .str _ => true
  | _ => false

/-- `it.get(k, default)` followed by storage into a field the dataclass
declares as `str`. Every record `save_entries` writes has string values
only; a present non-string value is outside the modelled schema (theorems
quantifying over arbitrary documents assume string-valued records). -/
def getStr (fields : List (String × Json)) (k : String) (default : String) : String :=
  match getField fields k with
  | some (.str s) => s
  | some _ => default
  | none => default

/-- All field values of a JSON object are strings. -/
def strValued (fields : List (String × Json)) : Bool :=
  fields.all (fun p => p.2.isStr)

/-- The per-record loop of `load_entries` (`Launcher_main.py`, lines
92-104). `uuid` models `uuid.uuid4()` as a supply of fresh identifiers;
`n` counts how many have been drawn. A `dict` record consumes one draw
(the eagerly evaluated default of `it.get("id", str(uuid.uuid4()))`) and
yields an entry, every missing field replaced by its default; a non-dict
record raises `AttributeError` before the default is evaluated and is
skipped by the `except: continue`. -/
def loadItems (uuid : Nat → String) : List Json → Nat → List LauncherEntry
  | [], _ => []
  | it :: rest, n =>
    match it with
    | .obj f =>
        { id := getStr f "id" (uuid n)
          name := getStr f "name" ""
          path := getStr f "path" ""
          description := getStr f "description" ""
          entry_type := getStr f "entry_type" "app" } :: loadItems uuid rest (n + 1)
    | _ => loadItems uuid rest n

/-- `load_entries` (`Launcher_main.py`, lines 83-107). `doc = none` models
a missing file (returns `[]`); a non-object document, or an `entries`
value that is not a list, ends in `[]` as well (either the outer `except`
or per-element `AttributeError`s). -/
def load_entries (uuid : Nat → String) (doc : Option Json) : List LauncherEntry :=
  match doc with
  | none => []
  | some (.obj fields) =>
    match getField fields "entries" with
    | some (.arr items) => loadItems uuid items 0
    | some _ => []
    | none => []
  | some _ => []

/-- `asdict(e)` for a `LauncherEntry` (field order of the dataclass). -/
def entryToJson (e : LauncherEntry) : Json :=
  .obj [("id", .str e.id), ("name", .str e.name), ("path", .str e.path),
        ("description", .str e.description), ("entry_type", .str e.entry_type)]

/-- The document `save_entries` writes: `{"entries": [asdict(e), ...]}`. -/
def entriesDoc (es : List LauncherEntry) : Json :=
  .obj [("entries", .arr (es.map entryToJson))]

/-! ### Backup filesystem model

The data file and its sibling backups `launcher_data.json.bak1 ..
.bak10`, as one state: `cur` is the current document's content (`none`
when the file does not exist) and `bak i` the content of generation `i`. -/

structure BakFS (α : Type) where
  cur : Option α
  bak : Nat → Option α

/-- One iteration of the rotation loop of `_backup_data_file`
(`Launcher_main.py`, lines 139-145): if `bak i` exists, delete any
occupant of `bak (i+1)` and rename `bak i` to `bak (i+1)`. -/
def rotStep {α : Type} (fs : BakFS α) (i : Nat) : BakFS α :=
  match fs.bak i with
  | some d =>
    { fs with bak := fun j => if j = i + 1 then some d else if j = i then none else fs.bak j }
  | none => fs

/-- The rotation loop `for i in range(9, 0, -1)` of `_backup_data_file`,
unrolled: `i = 9, 8, ..., 1`. -/
def rotateBackups {α : Type} (fs : BakFS α) : BakFS α :=
  rotStep (rotStep (rotStep (rotStep (rotStep (rotStep (rotStep (rotStep
    (rotStep fs 9) 8) 7) 6) 5) 4) 3) 2) 1

/-- `_backup_data_file` (`Launcher_main.py`, lines 132-152): a no-op when
the data file does not exist; otherwise rotate, remove any old `bak1`,
and copy the current document into `bak1`. -/
def backupDataFile {α : Type} (fs : BakFS α) : BakFS α :=
  match fs.cur with
  | none => fs
  | some d =>
    let fs1 := rotateBackups fs
    { fs1 with bak := fun j => if j = 1 then some d else fs1.bak j }

/-- One successful save of document content `d`: `_backup_data_file`
followed by overwriting the data file (`Launcher_main.py`, lines 155-162,
with `d` the serialized dump). -/
def saveDocFS {α : Type} (d : α) (fs : BakFS α) : BakFS α :=
  { backupDataFile fs with cur := some d }

/-- `save_entries` (`Launcher_main.py`, lines 155-162) acting on the
filesystem state. -/
def save_entriesFS (es : List LauncherEntry) (fs : BakFS Json) : BakFS Json :=
  saveDocFS (entriesDoc es) fs

/-- A sequence of successive successful saves, oldest first. -/
def savesFS {α : Type} (fs : BakFS α) (ds : List α) : BakFS α :=
  ds.foldl (fun s d => saveDocFS d s) fs

/-- The state "the document exists with content `d0` and no backups". -/
def initFS {α : Type} (d0 : α) : BakFS α :=
  ⟨some d0, fun _ => none⟩

/-- `get_backup_files` (`Launcher_main.py`, lines 110-118): the existing
generation indices in ascending order `1..10`, gaps skipped. -/
def get_backup_files {α : Type} (fs : BakFS α) : List Nat :=
  (List.range' 1 10).filter (fun i => (fs.bak i).isSome)

/-- Number of backup generations present. -/
def backupCount {α : Type} (fs : BakFS α) : Nat :=
  (get_backup_files fs).length

/-- `restore_from_backup` (`Launcher_main.py`, lines 121-129):
`shutil.copy2(backup_path, fp)` — on success the current document becomes
a verbatim copy of the chosen generation; a failing copy (modelled as the
generation being absent) returns `False` and changes nothing. -/
def restore_from_backup {α : Type} (fs : BakFS α) (i : Nat) : BakFS α × Bool :=
  match fs.bak i with
  | some d => ({ fs with cur := some d }, true)
  | none => (fs, false)

/-- `do_restore` inside `MainWindow.show_restore_dialog`
(`Launcher_main.py`, lines 652-660): the selected row indexes the list
returned by `get_backup_files`; the in-memory `self.entries` is not
touched on either path. -/
def do_restore {α : Type} (entries : List LauncherEntry) (fs : BakFS α) (row : Nat) :
    List LauncherEntry × BakFS α × Bool :=
  match (get_backup_files fs).get? row with
  | some i =>
    let r := restore_from_backup fs i
    (entries, r.1, r.2)
  | none => (entries, fs, false)

/-- `true` exactly on `Json.obj` values (the records `load_entries` can
parse; anything else raises inside the per-record `try`). -/
def Json.isObj : Json → Bool
  | .obj _ => true
  | _ => false

/-- Number of dict records in a list of JSON items — the number of
identifier draws `loadItems` makes while traversing it. -/
def countObjs (items : List Json) : Nat :=
  items.countP (fun it => it.isObj)

/-! ### Entry dialog (add validation) -/

/-- Observable outcome of `EntryDialog.get_entry` (`Launcher_main.py`,
lines 402-433). The two `QMessageBox.warning("未入力", ...)` paths are the
validation rejections; `cancelled` is the user answering "No" to the
missing-path confirmation question; `accepted` carries whether that
missing-path warning question was shown. -/
inductive GetEntryResult where
  | rejectedName
  | rejectedPath
  | cancelled
  | accepted (warnedMissingPath : Bool) (e : LauncherEntry)
  deriving Repr, DecidableEq

/-- Python `str.lower()`: each character lower-cased. -/
def pyLower (s : String) : String :=
  String.mk (s.toList.map Char.toLower)

/-- Python `str.strip()`: whitespace removed from both ends. -/
def pyStrip (s : String) : String :=
  String.mk (((s.toList.dropWhile Char.isWhitespace).reverse.dropWhile
    Char.isWhitespace).reverse)

/-- `EntryDialog.get_entry` for a new entry (`Launcher_main.py`, lines
402-433). `freshId` models `str(uuid.uuid4())`; `pathExists` models
`os.path.exists(path)` on the stripped path; `userProceeds` models the
user's answer to the "file not found, save anyway?" question. -/
def getEntry (freshId nameText descText : String) (isCategory : Bool)
    (pathText : String) (pathExists userProceeds : Bool) : GetEntryResult :=
  let name := pyStrip nameText
  let desc := pyStrip descText
  if name = "" then .rejectedName
  else if isCategory then
    .accepted false ⟨freshId, name, "", desc, "separator"⟩
  else
    let path := pyStrip pathText
    if path = "" then .rejectedPath
    else if ¬ pathExists then
      if userProceeds then .accepted true ⟨freshId, name, path, desc, "app"⟩
      else .cancelled
    else .accepted false ⟨freshId, name, path, desc, "app"⟩

/-- `MainWindow.add_entry_dialog` after the dialog is accepted
(`Launcher_main.py`, lines 520-526): a `None` result is dropped, an entry
is appended (`self.entries.append`) and saved. Returns the new registry
sequence and whether `save_entries` ran. -/
def addEntryDialog (entries : List LauncherEntry) (r : GetEntryResult) :
    List LauncherEntry × Bool :=
  match r with
  | .accepted _ e => (entries ++ [e], true)
  | _ => (entries, false)

/-! ### Launch strategy (`MainWindow._run_entry`) -/

/-- Index of the last occurrence of `c`, as `str.rfind` (`-1` if absent,
via `idxToInt`). -/
def lastIndexOf (cs : List Char) (c : Char) : Option Nat :=
  ((List.range cs.length).filter (fun i => cs.get? i = some c)).getLast?

/-- `rfind`-style index: `-1` for "not found". -/
def idxToInt : Option Nat → Int
  | none => -1
  | some n => (n : Int)

/-- The extension part of `os.path.splitext(path)` (CPython
`genericpath._splitext` with `sep = '\\'`, `altsep = '/'`): the suffix
from the last dot, provided that dot lies after the last separator and is
preceded (within the basename) by some non-dot character; otherwise `""`.
-/
def splitextExt (p : String) : String :=
  let cs := p.toList
  let sepIdx := max (idxToInt (lastIndexOf cs '\\')) (idxToInt (lastIndexOf cs '/'))
  let dotIdx := idxToInt (lastIndexOf cs '.')
  if sepIdx < dotIdx ∧
      (List.range cs.length).any
        (fun j => decide (sepIdx < (j : Int)) && decide ((j : Int) < dotIdx)
          && !(cs.get? j == some '.')) then
    String.mk (cs.drop dotIdx.toNat)
  else ""

/-- `os.path.dirname(path)`: everything up to the last path separator,
trailing separators stripped unless the head is nothing but separators
(drive-letter handling is not modelled; the registry stores plain
absolute paths). -/
def dirnameStr (p : String) : String :=
  let cs := p.toList
  let sepIdx := max (idxToInt (lastIndexOf cs '\\')) (idxToInt (lastIndexOf cs '/'))
  if sepIdx < 0 then ""
  else
    let head := cs.take (sepIdx.toNat + 1)
    let stripped := (head.reverse.dropWhile (fun c => c = '\\' ∨ c = '/')).reverse
    if stripped = [] then String.mk head else String.mk stripped

/-- Observable outcome of `MainWindow._run_entry`: early return for a
separator, the missing-file warning, `subprocess.Popen(cmd, shell=True)`
with the exact command string, `os.startfile(path)` (Windows default
handler), or `subprocess.Popen([path], cwd=cwd)` (non-Windows fallback). -/
inductive RunResult where
  | inapplicable
  | missingTarget
  | shellCmd (cmd : String)
  | startFile (path : String)
  | popenList (path : String) (cwd : Option String)
  deriving Repr, DecidableEq

/-- A Python f-string renders `None` as `"None"`. -/
def showCwd : Option String → String
  | some s => s
  | none => "None"

/-- The command `_run_entry` builds for `.py`/`.pyw` (line 685): a fresh
console (`start`), held open (`cmd /k`, trailing `pause`), working
directory set by `cd /d`, and the script run by the `python` interpreter. -/
def pyCmd (name : String) (cwd : Option String) (path : String) : String :=
  "start \"Python: " ++ name ++ "\" cmd /k \"cd /d \"" ++ showCwd cwd
    ++ "\" && python \"" ++ path ++ "\" && pause\""

/-- The command for `.exe`/`.bat`/`.cmd` when a working directory exists
(line 690): same console semantics, the path run directly. -/
def exeCmdCwd (name cwd path : String) : String :=
  "start \"" ++ name ++ "\" cmd /k \"cd /d \"" ++ cwd ++ "\" && \"" ++ path
    ++ "\" && pause\""

/-- The command for `.exe`/`.bat`/`.cmd` when `cwd` is `None` (line 692). -/
def exeCmdNoCwd (name path : String) : String :=
  "start \"" ++ name ++ "\" cmd /k \"\"" ++ path ++ "\" && pause\""

/-- `MainWindow._run_entry` (`Launcher_main.py`, lines 672-701). `isWin`
models `sys.platform.startswith("win")`; `pathExists` models
`os.path.exists(entry.path)` at resolution time. -/
def runEntry (isWin pathExists : Bool) (e : LauncherEntry) : RunResult :=
  if e.entry_type = "separator" then .inapplicable
  else if ¬ pathExists then .missingTarget
  else
    let ext := pyLower (splitextExt e.path)
    let cwd : Option String :=
      if dirnameStr e.path = "" then none else some (dirnameStr e.path)
    if ext = ".py" ∨ ext = ".pyw" then
      .shellCmd (pyCmd e.name cwd e.path)
    else if ext = ".exe" ∨ ext = ".bat" ∨ ext = ".cmd" then
      match cwd with
      | some c => .shellCmd (exeCmdCwd e.name c e.path)
      | none => .shellCmd (exeCmdNoCwd e.name e.path)
    else
      if isWin then .startFile e.path else .popenList e.path cwd

/-! ### Backup rotation shapes (proof infrastructure)

`bakShape m past d` describes a filesystem whose generations `1..m` hold,
newest first, the previous document states `past` (list head = newest);
`midShape m k past d` describes the state of the rotation loop just after
processing index `k` (slots below `k` still original, slots above shifted
up by one). -/

def bakShape {α : Type} (m : Nat) (past : List α) (d : α) : Nat → Option α :=
  fun j => if 1 ≤ j ∧ j ≤ m then some (past.getD (j - 1) d) else none

def midShape {α : Type} (m k : Nat) (past : List α) (d : α) : Nat → Option α :=
  fun j =>
    if 1 ≤ j ∧ j ≤ min (k - 1) m then some (past.getD (j - 1) d)
    else if k + 1 ≤ j ∧ j ≤ min (m + 1) 10 then some (past.getD (j - 2) d)
    else none

/-! ## Theorems -/

/-- Parsing back the records serialized by `save_entries` reproduces the
entries, whatever the identifier supply and its position. -/
theorem loadItems_entryToJson (uuid : Nat → String) :
    ∀ (es : List LauncherEntry) (n : Nat), loadItems uuid (es.map entryToJson) n = es
  | [], _ => rfl
  | e :: es, n => by
    show e :: loadItems uuid (es.map entryToJson) (n + 1) = e :: es
    rw [loadItems_entryToJson uuid es (n + 1)]

/-- C5: saving any sequence of entries and loading the resulting document
back (no corruption injected) reproduces the same entries in the same
order, field for field. -/
theorem save_load_round_trip (uuid : Nat → String) (es : List LauncherEntry)
    (fs : BakFS Json) : load_entries uuid (save_entriesFS es fs).cur = es := by
  show loadItems uuid (es.map entryToJson) 0 = es
  exact loadItems_entryToJson uuid es 0

/-- `loadItems` splits over an append; the identifier counter advances by
the number of dict records of the first part. -/
theorem loadItems_append (uuid : Nat → String) :
    ∀ (xs ys : List Json) (n : Nat),
      loadItems uuid (xs ++ ys) n
        = loadItems uuid xs n ++ loadItems uuid ys (n + countObjs xs) := by
  intro xs
  induction xs with
  | nil => intro ys n; simp [loadItems, countObjs]
  | cons x xs ih =>
    intro ys n
    cases x
    case obj f =>
      show _ :: loadItems uuid (xs ++ ys) (n + 1) = _
      rw [ih ys (n + 1)]
      have hc : countObjs (Json.obj f :: xs) = countObjs xs + 1 := by
        simp [countObjs, List.countP_cons, Json.isObj]
      rw [hc]
      have hn : n + 1 + countObjs xs = n + (countObjs xs + 1) := by omega
      rw [hn]
      rfl
    all_goals
      show loadItems uuid (xs ++ ys) n = _
      rw [ih ys n]
      simp [countObjs, List.countP_cons, Json.isObj, loadItems]

/-- C3 counterexample: a structurally valid document holding one
well-formed record and one record missing the `name` field loads as TWO
entries, not one — the name-less record is not dropped, it comes back
with `name = ""` (the `it.get("name", "")` default). -/
theorem load_missing_name_counterexample :
    load_entries (fun n => String.mk (List.replicate (n + 1) 'u'))
        (some (.obj [("entries", .arr
          [.obj [("id", .str "i1"), ("name", .str "A"), ("path", .str "p"),
                 ("description", .str ""), ("entry_type", .str "app")],
           .obj [("id", .str "i2"), ("path", .str "q"),
                 ("description", .str ""), ("entry_type", .str "app")]])]))
      = [⟨"i1", "A", "p", "", "app"⟩, ⟨"i2", "", "q", "", "app"⟩]
    ∧ (load_entries (fun n => String.mk (List.replicate (n + 1) 'u'))
        (some (.obj [("entries", .arr
          [.obj [("id", .str "i1"), ("name", .str "A"), ("path", .str "p"),
                 ("description", .str ""), ("entry_type", .str "app")],
           .obj [("id", .str "i2"), ("path", .str "q"),
                 ("description", .str ""), ("entry_type", .str "app")]])]))).length ≠ 1 := by
  constructor
  · rfl
  · decide

/-- C3 amended: a dict record missing the `name` field is NOT treated as
unparseable — it is kept in place with `name` defaulting to `""`, and the
surrounding records keep their array order. -/
theorem load_missing_name_amended (uuid : Nat → String) (n : Nat)
    (pre post : List Json) (f : List (String × Json))
    (h : getField f "name" = none) :
    loadItems uuid (pre ++ .obj f :: post) n
      = loadItems uuid pre n
        ++ { id := getStr f "id" (uuid (n + countObjs pre)), name := "",
             path := getStr f "path" "",
             description := getStr f "description" "",
             entry_type := getStr f "entry_type" "app" }
          :: loadItems uuid post (n + countObjs pre + 1) := by
  rw [loadItems_append]
  show loadItems uuid pre n
      ++ { id := getStr f "id" (uuid (n + countObjs pre)),
           name := getStr f "name" "",
           path := getStr f "path" "",
           description := getStr f "description" "",
           entry_type := getStr f "entry_type" "app" }
        :: loadItems uuid post (n + countObjs pre + 1) = _
  have hname : getStr f "name" "" = "" := by simp [getStr, h]
  rw [hname]

/-- Witness for `load_missing_name_amended` at a concrete record. -/
theorem load_missing_name_amended_witness :
    getField [("id", Json.str "x")] "name" = none
    ∧ loadItems (fun _ => "u") [Json.obj [("id", Json.str "x")]] 0
        = [⟨"x", "", "", "", "app"⟩] := by
  refine ⟨rfl, ?_⟩
  have h := load_missing_name_amended (fun _ => "u") 0 [] []
    [("id", Json.str "x")] rfl
  simpa using h

/-- C10 counterexample: a record carrying an explicit empty `id` keeps it
verbatim, so a loaded entry can have an empty id. -/
theorem load_empty_id_counterexample :
    (load_entries (fun n => String.mk (List.replicate (n + 1) 'u'))
        (some (.obj [("entries", .arr
          [.obj [("id", .str ""), ("name", .str "x"), ("path", .str "p"),
                 ("description", .str ""), ("entry_type", .str "app")]])]))).map (·.id)
      = [""] := by
  rfl

/-- C10 amended: a dict record lacking `id` is not dropped; the load
assigns it the next value of the identifier supply, which is non-empty
when the supply's outputs are, and two id-less records always receive
distinct identifiers when the supply is injective. -/
theorem load_fresh_id_amended (uuid : Nat → String) (h1 : ∀ m, uuid m ≠ "")
    (h2 : Function.Injective uuid) (n : Nat) (pre mid post : List Json)
    (f g : List (String × Json)) (hf : getField f "id" = none)
    (hg : getField g "id" = none) :
    loadItems uuid (pre ++ .obj f :: (mid ++ .obj g :: post)) n
      = loadItems uuid pre n
        ++ { id := uuid (n + countObjs pre), name := getStr f "name" "",
             path := getStr f "path" "",
             description := getStr f "description" "",
             entry_type := getStr f "entry_type" "app" }
          :: (loadItems uuid mid (n + countObjs pre + 1)
            ++ { id := uuid (n + countObjs pre + 1 + countObjs mid),
                 name := getStr g "name" "", path := getStr g "path" "",
                 description := getStr g "description" "",
                 entry_type := getStr g "entry_type" "app" }
              :: loadItems uuid post (n + countObjs pre + 1 + countObjs mid + 1))
    ∧ uuid (n + countObjs pre) ≠ ""
    ∧ uuid (n + countObjs pre + 1 + countObjs mid) ≠ ""
    ∧ uuid (n + countObjs pre) ≠ uuid (n + countObjs pre + 1 + countObjs mid) := by
  refine ⟨?_, h1 _, h1 _, ?_⟩
  · rw [loadItems_append]
    show loadItems uuid pre n
        ++ { id := getStr f "id" (uuid (n + countObjs pre)),
             name := getStr f "name" "", path := getStr f "path" "",
             description := getStr f "description" "",
             entry_type := getStr f "entry_type" "app" }
          :: loadItems uuid (mid ++ .obj g :: post) (n + countObjs pre + 1) = _
    have hfid : getStr f "id" (uuid (n + countObjs pre)) = uuid (n + countObjs pre) := by
      simp [getStr, hf]
    rw [hfid, loadItems_append]
    show _ ++ _ :: (loadItems uuid mid (n + countObjs pre + 1)
        ++ { id := getStr g "id" (uuid (n + countObjs pre + 1 + countObjs mid)),
             name := getStr g "name" "", path := getStr g "path" "",
             description := getStr g "description" "",
             entry_type := getStr g "entry_type" "app" }
          :: loadItems uuid post (n + countObjs pre + 1 + countObjs mid + 1)) = _
    have hgid : getStr g "id" (uuid (n + countObjs pre + 1 + countObjs mid))
        = uuid (n + countObjs pre + 1 + countObjs mid) := by
      simp [getStr, hg]
    rw [hgid]
  · intro hEq
    have := h2 hEq
    omega

/-- Witness for `load_fresh_id_amended`: two id-less records close
together, with the injective supply `n ↦ "u" * (n+1)`. -/
theorem load_fresh_id_amended_witness :
    loadItems (fun k => String.mk (List.replicate (k + 1) 'u'))
        [Json.obj [("name", Json.str "a")], Json.obj []] 0
      = [⟨"u", "a", "", "", "app"⟩, ⟨"uu", "", "", "", "app"⟩]
    ∧ ("u" : String) ≠ "" ∧ ("uu" : String) ≠ "" ∧ ("u" : String) ≠ "uu" := by
  have h1 : ∀ m, (fun k => String.mk (List.replicate (k + 1) 'u')) m ≠ "" := by
    intro m hEq
    have := congrArg (fun s => s.data.length) hEq
    simp at this
  have h2 : Function.Injective (fun k => String.mk (List.replicate (k + 1) 'u')) := by
    intro a b hEq
    have := congrArg (fun s => s.data.length) hEq
    simp at this
    omega
  have h := load_fresh_id_amended (fun k => String.mk (List.replicate (k + 1) 'u'))
    h1 h2 0 [] [] [] [("name", Json.str "a")] [] rfl rfl
  obtain ⟨hmain, ha, hb, hab⟩ := h
  refine ⟨?_, by decide, by decide, by decide⟩
  simpa using hmain

/-- C6: the add dialog rejects (a `ValidationError` warning) exactly when
the trimmed name is empty, or the kind is application and the trimmed
path is empty; a non-empty path that does not exist only raises the
confirmation warning — proceeding yields an accepted entry with the
warning flag — and every accepted entry is appended at the end of the
order and saved. -/
theorem getEntry_validation (fid nt dt : String) (cat : Bool) (pt : String)
    (pe up : Bool) (entries : List LauncherEntry) :
    ((getEntry fid nt dt cat pt pe up = .rejectedName ∨
        getEntry fid nt dt cat pt pe up = .rejectedPath)
      ↔ (pyStrip nt = "" ∨ (cat = false ∧ pyStrip pt = ""))) ∧
    (pe = false → up = true → pyStrip nt ≠ "" → cat = false → pyStrip pt ≠ "" →
      getEntry fid nt dt cat pt pe up
        = .accepted true ⟨fid, pyStrip nt, pyStrip pt, pyStrip dt, "app"⟩) ∧
    (∀ w e, getEntry fid nt dt cat pt pe up = .accepted w e →
      addEntryDialog entries (getEntry fid nt dt cat pt pe up)
        = (entries ++ [e], true)) := by
  unfold getEntry
  by_cases hn : pyStrip nt = "" <;> cases cat <;> by_cases hp : pyStrip pt = "" <;>
    cases pe <;> cases up <;>
      simp_all [addEntryDialog]

/-- Witness for `getEntry_validation`: an application entry with a
non-existent path, the user proceeding. -/
theorem getEntry_validation_witness :
    getEntry "u" " N " " d " false " p " false true
      = .accepted true ⟨"u", "N", "p", "d", "app"⟩
    ∧ addEntryDialog [] (getEntry "u" " N " " d " false " p " false true)
      = ([⟨"u", "N", "p", "d", "app"⟩], true) := by
  have h := getEntry_validation "u" " N " " d " false " p " false true []
  have ha := h.2.1 rfl rfl (by decide) rfl (by decide)
  have hn : pyStrip " N " = "N" := by decide
  have hp : pyStrip " p " = "p" := by decide
  have hd : pyStrip " d " = "d" := by decide
  rw [hn, hp, hd] at ha
  exact ⟨ha, h.2.2 true ⟨"u", "N", "p", "d", "app"⟩ ha⟩

/-- C7: launch resolution — a category entry is inapplicable; a missing
path aborts (`MissingTarget`); otherwise dispatch is on the lower-cased
extension: `.py`/`.pyw` run the `python` interpreter on the path in a
fresh console (`start`), held open (`cmd /k` + `pause`), working
directory set to the containing directory (`cd /d`); `.exe`/`.bat`/`.cmd`
run the path directly with the same console semantics; anything else is
handed to `os.startfile`, the Windows default-handler mechanism. Stated
on the Windows platform (`isWin = true`) for an entry whose absolute
path has a containing directory. -/
theorem runEntry_dispatch (e : LauncherEntry) (pe : Bool) :
    (e.entry_type = "separator" → runEntry true pe e = .inapplicable) ∧
    (e.entry_type ≠ "separator" → pe = false →
      runEntry true pe e = .missingTarget) ∧
    (e.entry_type ≠ "separator" → pe = true →
      (pyLower (splitextExt e.path) = ".py" ∨ pyLower (splitextExt e.path) = ".pyw") →
      dirnameStr e.path ≠ "" →
      runEntry true pe e = .shellCmd (pyCmd e.name (some (dirnameStr e.path)) e.path)) ∧
    (e.entry_type ≠ "separator" → pe = true →
      (pyLower (splitextExt e.path) = ".exe" ∨ pyLower (splitextExt e.path) = ".bat" ∨
        pyLower (splitextExt e.path) = ".cmd") →
      dirnameStr e.path ≠ "" →
      runEntry true pe e = .shellCmd (exeCmdCwd e.name (dirnameStr e.path) e.path)) ∧
    (e.entry_type ≠ "separator" → pe = true →
      pyLower (splitextExt e.path) ∉ ([".py", ".pyw", ".exe", ".bat", ".cmd"] : List String) →
      runEntry true pe e = .startFile e.path) := by
  refine ⟨?_, ?_, ?_, ?_, ?_⟩
  · intro hs
    simp [runEntry, hs]
  · intro hs hpe
    subst hpe
    simp [runEntry, hs]
  · intro hs hpe hext hdir
    subst hpe
    rcases hext with hx | hx <;> simp [runEntry, hs, hx, hdir]
  · intro hs hpe hext hdir
    subst hpe
    rcases hext with hx | hx | hx <;> simp [runEntry, hs, hx, hdir]
  · intro hs hpe hext
    subst hpe
    simp only [List.mem_cons, List.not_mem_nil, or_false, not_or] at hext
    obtain ⟨h1, h2, h3, h4, h5⟩ := hext
    simp [runEntry, hs, h1, h2, h3, h4, h5]

/-- Witness for `runEntry_dispatch`: a script entry with an upper-cased
extension resolves to the interpreter-in-console plan. -/
theorem runEntry_dispatch_witness :
    runEntry true true ⟨"a", "Notes", "C:\\d\\s.PY", "", "app"⟩
      = .shellCmd (pyCmd "Notes" (some "C:\\d") "C:\\d\\s.PY") := by
  have h := (runEntry_dispatch ⟨"a", "Notes", "C:\\d\\s.PY", "", "app"⟩ true).2.2.1
    (by decide) rfl (Or.inl (by decide)) (by decide)
  have hd : dirnameStr "C:\\d\\s.PY" = "C:\\d" := by decide
  rw [hd] at h
  exact h

/-- C8: a successful restore (the selected row addresses an existing
backup generation) copies that generation's content over the current
document and changes nothing else: the in-memory registry sequence is
untouched, every backup generation is untouched, and the operation
reports success. -/
theorem do_restore_frame {α : Type} (entries : List LauncherEntry) (fs : BakFS α)
    (row i : Nat) (h : (get_backup_files fs).get? row = some i) :
    (do_restore entries fs row).1 = entries ∧
    (do_restore entries fs row).2.1.cur = fs.bak i ∧
    (do_restore entries fs row).2.1.bak = fs.bak ∧
    (do_restore entries fs row).2.2 = true := by
  have hmem : i ∈ get_backup_files fs := List.get?_mem h
  have hsome : (fs.bak i).isSome := by
    have := List.of_mem_filter hmem
    simpa using this
  obtain ⟨d, hd⟩ := Option.isSome_iff_exists.mp hsome
  unfold do_restore restore_from_backup
  rw [h, hd]
  simp [hd]

/-- Witness for `do_restore_frame`: restoring generation 3 of a filesystem
holding only that generation. -/
theorem do_restore_frame_witness :
    (do_restore [] (⟨some 5, fun j => if j = 3 then some 7 else none⟩ : BakFS Nat) 0).1
        = [] ∧
    (do_restore [] (⟨some 5, fun j => if j = 3 then some 7 else none⟩ : BakFS Nat) 0).2.1.cur
        = (⟨some 5, fun j => if j = 3 then some 7 else none⟩ : BakFS Nat).bak 3 ∧
    (do_restore [] (⟨some 5, fun j => if j = 3 then some 7 else none⟩ : BakFS Nat) 0).2.1.bak
        = (⟨some 5, fun j => if j = 3 then some 7 else none⟩ : BakFS Nat).bak ∧
    (do_restore [] (⟨some 5, fun j => if j = 3 then some 7 else none⟩ : BakFS Nat) 0).2.2
        = true :=
  do_restore_frame [] ⟨some 5, fun j => if j = 3 then some 7 else none⟩ 0 3 (by decide)

/-! ### Reorder reconciliation (`_save_current_order`) -/

/-- If `eid` is one of the held ids, the dict lookup succeeds and returns
an entry of the list carrying that id. -/
theorem idToEntry_mem_map (entries : List LauncherEntry) (eid : String)
    (h : eid ∈ entries.map (·.id)) :
    ∃ e, idToEntry entries eid = some e ∧ e ∈ entries ∧ e.id = eid := by
  obtain ⟨e, he, heq⟩ := List.mem_map.mp h
  have hsome : (entries.reverse.find? (fun x => x.id = eid)).isSome := by
    rw [List.find?_isSome]
    exact ⟨e, List.mem_reverse.mpr he, by simp [heq]⟩
  obtain ⟨e', he'⟩ := Option.isSome_iff_exists.mp hsome
  refine ⟨e', he', List.mem_reverse.mp (List.mem_of_find?_eq_some he'), ?_⟩
  have := List.find?_some he'
  simpa using this

/-- If `eid` is not a held id, the lookup fails (that ordered id is
silently skipped by the comprehension's `if eid in id_to_entry`). -/
theorem idToEntry_eq_none (entries : List LauncherEntry) (eid : String)
    (h : eid ∉ entries.map (·.id)) : idToEntry entries eid = none := by
  apply List.find?_eq_none.mpr
  intro x hx
  simp only [decide_eq_true_eq]
  intro heq
  exact h (List.mem_map.mpr ⟨x, List.mem_reverse.mp hx, heq⟩)

/-- Under the registry invariant (pairwise distinct ids), looking up an
entry's own id returns that very entry. -/
theorem idToEntry_self (entries : List LauncherEntry) (e : LauncherEntry)
    (hnd : (entries.map (·.id)).Nodup) (he : e ∈ entries) :
    idToEntry entries e.id = some e := by
  obtain ⟨e', hfind, he', hid⟩ :=
    idToEntry_mem_map entries e.id (List.mem_map_of_mem _ he)
  have : e' = e := List.inj_on_of_nodup_map hnd he' he hid
  rw [hfind, this]

/-- The ids of the re-projected sequence are exactly the reported ids that
the registry actually holds, in reported order. -/
theorem filterMap_idToEntry_map_id (entries : List LauncherEntry) :
    ∀ S : List String,
      (S.filterMap (fun eid => idToEntry entries eid)).map (·.id)
        = S.filter (fun eid => eid ∈ entries.map (·.id)) := by
  intro S
  induction S with
  | nil => rfl
  | cons s S ih =>
    rw [List.filterMap_cons, List.filter_cons]
    by_cases hs : s ∈ entries.map (·.id)
    · obtain ⟨e, hfind, _, hid⟩ := idToEntry_mem_map entries s hs
      rw [hfind, if_pos (decide_eq_true hs), List.map_cons, ih, hid]
    · rw [idToEntry_eq_none entries s hs,
        if_neg (by simpa using hs), ih]

/-- Every re-projected entry is one of the registry's existing entries. -/
theorem mem_of_mem_filterMap_idToEntry (entries : List LauncherEntry)
    (S : List String) (e : LauncherEntry)
    (h : e ∈ S.filterMap (fun eid => idToEntry entries eid)) : e ∈ entries := by
  obtain ⟨eid, _, hfind⟩ := List.mem_filterMap.mp h
  exact List.mem_reverse.mp (List.mem_of_find?_eq_some hfind)

/-- Re-projecting the registry's own id sequence reproduces the registry. -/
theorem filterMap_idToEntry_self (l : List LauncherEntry)
    (hnd : (l.map (·.id)).Nodup) :
    (l.map (·.id)).filterMap (fun eid => idToEntry l eid) = l := by
  rw [List.filterMap_map]
  have hcongr : ∀ e ∈ l, ((fun eid => idToEntry l eid) ∘ (fun e => e.id)) e = some e :=
    fun e he => idToEntry_self l e hnd he
  calc l.filterMap ((fun eid => idToEntry l eid) ∘ (fun e => e.id))
      = l.filterMap some := List.filterMap_congr hcongr
    _ = l := List.filterMap_some l

/-- When every held id is reported and the report is duplicate-free, the
reported ids that the registry holds are as many as the entries. -/
theorem filter_mem_length (entries : List LauncherEntry) (S : List String)
    (hnd : (entries.map (·.id)).Nodup) (hS : S.Nodup)
    (hmiss : ∀ e ∈ entries, e.id ∈ S) :
    (S.filter (fun eid => eid ∈ entries.map (·.id))).length = entries.length := by
  have hperm : (S.filter (fun eid => eid ∈ entries.map (·.id))).Perm
      (entries.map (·.id)) := by
    apply (List.perm_ext_iff_of_nodup (hS.filter _) hnd).mpr
    intro a
    constructor
    · intro ha
      have := (List.mem_filter.mp ha).2
      simpa using this
    · intro ha
      apply List.mem_filter.mpr
      refine ⟨?_, by simpa using ha⟩
      obtain ⟨e, he, rfl⟩ := List.mem_map.mp ha
      exact hmiss e he
  simpa using hperm.length_eq

/-- Length of the re-projection when nothing is missing and the report is
duplicate-free. -/
theorem newEntries_length (entries : List LauncherEntry) (S : List String)
    (hnd : (entries.map (·.id)).Nodup) (hS : S.Nodup)
    (hmiss : ∀ e ∈ entries, e.id ∈ S) :
    (S.filterMap (fun eid => idToEntry entries eid)).length = entries.length := by
  have h := congrArg List.length (filterMap_idToEntry_map_id entries S)
  simp only [List.length_map] at h
  rw [h, filter_mem_length entries S hnd hS hmiss]

/-- The re-projection is a permutation of the registry (no entry created,
destroyed or mutated). -/
theorem newEntries_perm (entries : List LauncherEntry) (S : List String)
    (hnd : (entries.map (·.id)).Nodup) (hS : S.Nodup)
    (hmiss : ∀ e ∈ entries, e.id ∈ S) :
    (S.filterMap (fun eid => idToEntry entries eid)).Perm entries := by
  have hndNew : (S.filterMap (fun eid => idToEntry entries eid)).Nodup := by
    apply List.Nodup.of_map (f := (·.id))
    rw [filterMap_idToEntry_map_id]
    exact hS.filter _
  have hsub : (S.filterMap (fun eid => idToEntry entries eid)) ⊆ entries :=
    fun e he => mem_of_mem_filterMap_idToEntry entries S e he
  exact (List.subperm_of_subset hndNew hsub).perm_of_length_le
    (le_of_eq (newEntries_length entries S hnd hS hmiss).symm)

/-- The accepting path of `_save_current_order`: nothing missing,
duplicate-free, and the re-projection is full-length — the new order is
assigned and saved. -/
theorem saveCurrentOrder_applied (entries : List LauncherEntry) (S : List String)
    (hmiss : ∀ e ∈ entries, e.id ∈ S) (hS : S.Nodup)
    (hlen : (S.filterMap (fun eid => idToEntry entries eid)).length = entries.length) :
    saveCurrentOrder entries S
      = ⟨S.filterMap (fun eid => idToEntry entries eid), true, false⟩ := by
  unfold saveCurrentOrder
  dsimp only
  split_ifs with hA hB
  · exfalso
    apply hA
    apply List.filter_eq_nil_iff.mpr
    intro i hi
    obtain ⟨e, he, rfl⟩ := List.mem_map.mp hi
    simpa using hmiss e he
  · exfalso
    exact hB (by rw [hS.dedup])
  · rfl

/-- Full characterization of `_save_current_order` on a duplicate-free
permutation of the current ids (shared helper). -/
theorem saveCurrentOrder_perm (entries : List LauncherEntry) (S : List String)
    (hnd : (entries.map (·.id)).Nodup) (hS : S.Nodup)
    (hperm : S.Perm (entries.map (·.id))) :
    saveCurrentOrder entries S
        = ⟨S.filterMap (fun eid => idToEntry entries eid), true, false⟩
    ∧ (saveCurrentOrder entries S).entries.map (·.id) = S
    ∧ (saveCurrentOrder entries S).entries.Perm entries
    ∧ ∀ e ∈ (saveCurrentOrder entries S).entries,
        e ∈ entries ∧ idToEntry entries e.id = some e := by
  have hmiss : ∀ e ∈ entries, e.id ∈ S := fun e he =>
    hperm.mem_iff.mpr (List.mem_map_of_mem _ he)
  have happ := saveCurrentOrder_applied entries S hmiss hS
    (newEntries_length entries S hnd hS hmiss)
  have hmap : (saveCurrentOrder entries S).entries.map (·.id) = S := by
    rw [happ]
    show (S.filterMap (fun eid => idToEntry entries eid)).map (·.id) = S
    rw [filterMap_idToEntry_map_id]
    apply List.filter_eq_self.mpr
    intro s hsmem
    exact decide_eq_true (hperm.mem_iff.mp hsmem)
  refine ⟨happ, hmap, ?_, ?_⟩
  · rw [happ]
    exact newEntries_perm entries S hnd hS hmiss
  · intro e he
    rw [happ] at he
    have hmem := mem_of_mem_filterMap_idToEntry entries S e he
    exact ⟨hmem, idToEntry_self entries e hnd hmem⟩

/-- C4: a duplicate-free reorder report that is a permutation of the
registry's current ids is accepted: the existing entries are re-projected
into the reported order (the result's id sequence is exactly the report,
it is a permutation of the registry, and each position holds the
unchanged existing entry its id resolves to), applied in memory and
persisted. -/
theorem reorder_permutation_applied (entries : List LauncherEntry) (S : List String)
    (hnd : (entries.map (·.id)).Nodup) (hS : S.Nodup)
    (hperm : S.Perm (entries.map (·.id))) :
    saveCurrentOrder entries S
        = ⟨S.filterMap (fun eid => idToEntry entries eid), true, false⟩
    ∧ (saveCurrentOrder entries S).entries.map (·.id) = S
    ∧ (saveCurrentOrder entries S).entries.Perm entries
    ∧ ∀ e ∈ (saveCurrentOrder entries S).entries,
        e ∈ entries ∧ idToEntry entries e.id = some e :=
  saveCurrentOrder_perm entries S hnd hS hperm

/-- Witness for `reorder_permutation_applied`: swapping two entries. -/
theorem reorder_permutation_applied_witness :
    saveCurrentOrder
        [⟨"a", "Notes", "p", "", "app"⟩, ⟨"b", "Calc", "q", "", "app"⟩]
        ["b", "a"]
      = ⟨[⟨"b", "Calc", "q", "", "app"⟩, ⟨"a", "Notes", "p", "", "app"⟩], true, false⟩ := by
  have h := (reorder_permutation_applied
    [⟨"a", "Notes", "p", "", "app"⟩, ⟨"b", "Calc", "q", "", "app"⟩]
    ["b", "a"] (by decide) (by decide) (by decide)).1
  rw [h]
  rfl

/-- C9: applying the same valid duplicate-free permutation report twice
in a row yields the same final order as applying it once. -/
theorem reorder_idempotent (entries : List LauncherEntry) (S : List String)
    (hnd : (entries.map (·.id)).Nodup) (hS : S.Nodup)
    (hperm : S.Perm (entries.map (·.id))) :
    (saveCurrentOrder (saveCurrentOrder entries S).entries S).entries
      = (saveCurrentOrder entries S).entries := by
  obtain ⟨heq, hmap, hpermE, hmem⟩ :=
    saveCurrentOrder_perm entries S hnd hS hperm
  have hnd1 : ((saveCurrentOrder entries S).entries.map (·.id)).Nodup := by
    rw [hmap]; exact hS
  have hperm1 : S.Perm ((saveCurrentOrder entries S).entries.map (·.id)) := by
    rw [hmap]
  obtain ⟨heq2, _, _, _⟩ :=
    saveCurrentOrder_perm (saveCurrentOrder entries S).entries S hnd1 hS hperm1
  rw [heq2]
  show S.filterMap (fun eid => idToEntry (saveCurrentOrder entries S).entries eid)
      = (saveCurrentOrder entries S).entries
  have hconv : S.filterMap (fun eid => idToEntry (saveCurrentOrder entries S).entries eid)
      = ((saveCurrentOrder entries S).entries.map (·.id)).filterMap
          (fun eid => idToEntry (saveCurrentOrder entries S).entries eid) := by
    rw [hmap]
  rw [hconv]
  exact filterMap_idToEntry_self (saveCurrentOrder entries S).entries hnd1

/-- Witness for `reorder_idempotent`. -/
theorem reorder_idempotent_witness :
    (saveCurrentOrder
        (saveCurrentOrder
          [⟨"a", "Notes", "p", "", "app"⟩, ⟨"b", "Calc", "q", "", "app"⟩]
          ["b", "a"]).entries
        ["b", "a"]).entries
      = (saveCurrentOrder
          [⟨"a", "Notes", "p", "", "app"⟩, ⟨"b", "Calc", "q", "", "app"⟩]
          ["b", "a"]).entries :=
  reorder_idempotent
    [⟨"a", "Notes", "p", "", "app"⟩, ⟨"b", "Calc", "q", "", "app"⟩]
    ["b", "a"] (by decide) (by decide) (by decide)

/-- C1 counterexample: the report `["b", "x", "a"]` has an id-set
different from the registry's `{"a", "b"}` (the unknown id `"x"` is
present), yet `_save_current_order` accepts it: the unknown id is
silently filtered out, the order flips, and the result is saved — the
claim's "left unchanged, persists nothing, rejected as Incomplete" fails
on any report that contains all current ids plus extras. -/
theorem reorder_extra_id_counterexample :
    ("x" ∈ (["b", "x", "a"] : List String)
      ∧ "x" ∉ ([⟨"a", "Notes", "p", "", "app"⟩, ⟨"b", "Calc", "q", "", "app"⟩] :
          List LauncherEntry).map (·.id))
    ∧ saveCurrentOrder
        [⟨"a", "Notes", "p", "", "app"⟩, ⟨"b", "Calc", "q", "", "app"⟩]
        ["b", "x", "a"]
      = ⟨[⟨"b", "Calc", "q", "", "app"⟩, ⟨"a", "Notes", "p", "", "app"⟩],
          true, false⟩ := by
  decide

/-- C1 amended: only ids missing from the report make `_save_current_order`
leave the order untouched, persist nothing and rebuild the list (the
resynchronization signal); a duplicate-free report containing every
current id is applied and persisted even when it also contains unknown
extra ids, which are silently dropped. -/
theorem reorder_mismatch_amended (entries : List LauncherEntry) (S : List String)
    (hnd : (entries.map (·.id)).Nodup) :
    ((∃ e ∈ entries, e.id ∉ S) →
      saveCurrentOrder entries S = ⟨entries, false, true⟩)
    ∧ ((∀ e ∈ entries, e.id ∈ S) → S.Nodup →
        saveCurrentOrder entries S
            = ⟨S.filterMap (fun eid => idToEntry entries eid), true, false⟩
        ∧ (saveCurrentOrder entries S).entries.map (·.id)
            = S.filter (fun eid => eid ∈ entries.map (·.id))
        ∧ (saveCurrentOrder entries S).entries.Perm entries) := by
  constructor
  · intro ⟨e, he, hnotin⟩
    have hmem : e.id ∈ (entries.map (·.id)).filter (fun i => ¬ i ∈ S) := by
      apply List.mem_filter.mpr
      exact ⟨List.mem_map_of_mem _ he, by simpa using hnotin⟩
    unfold saveCurrentOrder
    dsimp only
    rw [if_pos (List.ne_nil_of_mem hmem)]
  · intro hmiss hS
    have happ := saveCurrentOrder_applied entries S hmiss hS
      (newEntries_length entries S hnd hS hmiss)
    refine ⟨happ, ?_, ?_⟩
    · rw [happ]
      show (S.filterMap (fun eid => idToEntry entries eid)).map (·.id) = _
      exact filterMap_idToEntry_map_id entries S
    · rw [happ]
      exact newEntries_perm entries S hnd hS hmiss

/-- Witness for `reorder_mismatch_amended`: a report missing an id is
refused without saving; a report with one extra unknown id is applied. -/
theorem reorder_mismatch_amended_witness :
    saveCurrentOrder
        [⟨"a", "Notes", "p", "", "app"⟩, ⟨"b", "Calc", "q", "", "app"⟩] ["b"]
      = ⟨[⟨"a", "Notes", "p", "", "app"⟩, ⟨"b", "Calc", "q", "", "app"⟩],
          false, true⟩
    ∧ (saveCurrentOrder
        [⟨"a", "Notes", "p", "", "app"⟩, ⟨"b", "Calc", "q", "", "app"⟩]
        ["b", "x", "a"]).entries.map (·.id) = ["b", "a"] := by
  constructor
  · exact (reorder_mismatch_amended
      [⟨"a", "Notes", "p", "", "app"⟩, ⟨"b", "Calc", "q", "", "app"⟩]
      ["b"] (by decide)).1 ⟨⟨"a", "Notes", "p", "", "app"⟩, by decide, by decide⟩
  · have h := ((reorder_mismatch_amended
      [⟨"a", "Notes", "p", "", "app"⟩, ⟨"b", "Calc", "q", "", "app"⟩]
      ["b", "x", "a"] (by decide)).2 (by decide) (by decide)).2.1
    rw [h]
    rfl

/-- The first rotation iteration (`i = 9`): slot 10 is deleted (if any)
and slot 9 moves into it. -/
theorem rotStep_shape9 {α : Type} (c : Option α) (past : List α) (d : α) (m : Nat)
    (hm : m ≤ 10) :
    rotStep ⟨c, bakShape m past d⟩ 9 = ⟨c, midShape m 9 past d⟩ := by
  by_cases h9 : 9 ≤ m
  · have hbk : bakShape m past d 9 = some (past.getD 8 d) := by
      unfold bakShape
      rw [if_pos ⟨by omega, h9⟩]
    unfold rotStep
    dsimp only
    rw [hbk]
    dsimp only
    congr 1
    funext j
    unfold bakShape midShape
    split_ifs <;> first | rfl | omega | (subst_vars; rfl)
  · have hbk : bakShape m past d 9 = none := by
      unfold bakShape
      rw [if_neg (by omega)]
    unfold rotStep
    dsimp only
    rw [hbk]
    dsimp only
    congr 1
    funext j
    unfold bakShape midShape
    split_ifs <;> first | rfl | omega

/-- One inner rotation iteration (`i = k`, `1 ≤ k ≤ 8`): the loop state
advances from just-before-`k` to just-after-`k`. -/
theorem rotStep_mid {α : Type} (c : Option α) (past : List α) (d : α) (m k k' : Nat)
    (hk1 : 1 ≤ k) (hk8 : k ≤ 8) (hm : m ≤ 10) (hk' : k' = k + 1) :
    rotStep ⟨c, midShape m k' past d⟩ k = ⟨c, midShape m k past d⟩ := by
  subst hk'
  by_cases hkm : k ≤ m
  · have hbk : midShape m (k + 1) past d k = some (past.getD (k - 1) d) := by
      unfold midShape
      rw [if_pos ⟨hk1, by omega⟩]
    unfold rotStep
    dsimp only
    rw [hbk]
    dsimp only
    congr 1
    funext j
    unfold midShape
    split_ifs <;> first | rfl | omega | (subst_vars; rfl)
  · have hbk : midShape m (k + 1) past d k = none := by
      unfold midShape
      rw [if_neg (by omega), if_neg (by omega)]
    unfold rotStep
    dsimp only
    rw [hbk]
    dsimp only
    congr 1
    funext j
    unfold midShape
    split_ifs <;> first | rfl | omega

/-- The whole rotation loop shifts every occupied generation up by one,
leaving slot 1 free and dropping whatever occupied slot 10. -/
theorem rotateBackups_shape {α : Type} (c : Option α) (past : List α) (d : α) (m : Nat)
    (hm : m ≤ 10) :
    rotateBackups ⟨c, bakShape m past d⟩ = ⟨c, midShape m 1 past d⟩ := by
  unfold rotateBackups
  rw [rotStep_shape9 c past d m hm,
    rotStep_mid c past d m 8 9 (by omega) (by omega) hm (by omega),
    rotStep_mid c past d m 7 8 (by omega) (by omega) hm (by omega),
    rotStep_mid c past d m 6 7 (by omega) (by omega) hm (by omega),
    rotStep_mid c past d m 5 6 (by omega) (by omega) hm (by omega),
    rotStep_mid c past d m 4 5 (by omega) (by omega) hm (by omega),
    rotStep_mid c past d m 3 4 (by omega) (by omega) hm (by omega),
    rotStep_mid c past d m 2 3 (by omega) (by omega) hm (by omega),
    rotStep_mid c past d m 1 2 (by omega) (by omega) hm (by omega)]



/-- `_backup_data_file` on an existing document: generations shift up and
the current document is copied into generation 1. -/
theorem backupDataFile_shape {α : Type} (x d : α) (past : List α) (m : Nat)
    (hm : m ≤ 10) :
    backupDataFile ⟨some x, bakShape m past d⟩
      = ⟨some x, bakShape (min (m + 1) 10) (x :: past) d⟩ := by
  unfold backupDataFile
  dsimp only
  rw [rotateBackups_shape (some x) past d m hm]
  congr 1
  funext j
  dsimp only
  unfold midShape bakShape
  split_ifs <;>
    first
      | rfl
      | omega
      | (subst_vars; rfl)
      | (refine congrArg some ?_
         have hj : j - 1 = (j - 2) + 1 := by omega
         rw [hj, List.getD_cons_succ])

/-- One successful save pushes the current document onto the backup
history and overwrites the document. -/
theorem saveDocFS_shape {α : Type} (x y d : α) (past : List α) (m : Nat)
    (hm : m ≤ 10) :
    saveDocFS y ⟨some x, bakShape m past d⟩
      = ⟨some y, bakShape (min (m + 1) 10) (x :: past) d⟩ := by
  unfold saveDocFS
  rw [backupDataFile_shape x d past m hm]

/-- A run of successive saves from a document-with-history state: the
final document is the last save, and the history is all earlier states,
newest first, truncated to ten generations. -/
theorem savesFS_shape {α : Type} (d : α) :
    ∀ (ds : List α) (x : α) (past : List α),
      savesFS ⟨some x, bakShape (min past.length 10) past d⟩ ds
        = ⟨some (ds.getLastD x),
            bakShape (min ((x :: ds).dropLast.reverse ++ past).length 10)
              ((x :: ds).dropLast.reverse ++ past) d⟩
  | [], x, past => by
    simp [savesFS]
  | d1 :: ds, x, past => by
    show savesFS (saveDocFS d1 ⟨some x, bakShape (min past.length 10) past d⟩) ds = _
    rw [saveDocFS_shape x d1 d past (min past.length 10) (by omega)]
    have hmin : min (min past.length 10 + 1) 10 = min (x :: past).length 10 := by
      simp only [List.length_cons]
      omega
    rw [hmin, savesFS_shape d ds d1 (x :: past)]
    have hlast : (ds.getLastD d1) = ((d1 :: ds).getLastD x) := by
      rw [List.getLastD_cons]
    have hlist : (d1 :: ds).dropLast.reverse ++ x :: past
        = (x :: d1 :: ds).dropLast.reverse ++ past := by
      rw [List.dropLast_cons₂, List.reverse_cons, List.append_assoc,
        List.singleton_append]
    rw [hlast, hlist]

/-- A shape with `m` generations has exactly `m` backup files. -/
theorem backupCount_shape {α : Type} (c : Option α) (past : List α) (d : α) (m : Nat)
    (hm : m ≤ 10) :
    backupCount (⟨c, bakShape m past d⟩ : BakFS α) = m := by
  unfold backupCount get_backup_files
  dsimp only
  have hcongr : ∀ i ∈ List.range' 1 10,
      ((bakShape m past d) i).isSome = decide (1 ≤ i ∧ i ≤ m) := by
    intro i _
    unfold bakShape
    split_ifs with h <;> simp [h]
  rw [List.filter_congr hcongr]
  interval_cases m <;> rfl



/-- C2: after `N >= 1` successive successful saves `ds` of a document
that initially exists with content `d0` (and no backups), exactly
`min(N, 10)` backup generations exist; generation `i` holds the document
state just before save `N - i + 1` — in particular generation 1 is the
state immediately before the latest save, and after 12 saves generation
10 is the state as of save #2. -/
theorem backup_generations {α : Type} (d0 : α) (ds : List α) (hN : 1 ≤ ds.length) :
    backupCount (savesFS (initFS d0) ds) = min ds.length 10
    ∧ (∀ i, 1 ≤ i → i ≤ min ds.length 10 →
        (savesFS (initFS d0) ds).bak i = some ((d0 :: ds).getD (ds.length - i) d0))
    ∧ (ds.length = 12 →
        (savesFS (initFS d0) ds).bak 10 = some ((d0 :: ds).getD 2 d0)) := by
  have hinit : (initFS d0 : BakFS α)
      = ⟨some d0, bakShape (min ([] : List α).length 10) [] d0⟩ := by
    unfold initFS bakShape
    congr 1
    funext j
    rw [if_neg (by simp; omega)]
  rw [hinit, savesFS_shape d0 ds d0 []]
  have hPlen : ((d0 :: ds).dropLast.reverse ++ ([] : List α)).length = ds.length := by
    simp
  have hgetD : ∀ i, 1 ≤ i → i ≤ min ds.length 10 →
      ((d0 :: ds).dropLast.reverse ++ ([] : List α)).getD (i - 1) d0
        = (d0 :: ds).getD (ds.length - i) d0 := by
    intro i h1 h2
    rw [List.append_nil, List.getD_eq_getElem?_getD, List.getD_eq_getElem?_getD,
      List.getElem?_reverse (by simp; omega)]
    have hL : (d0 :: ds).dropLast.length = ds.length := by simp
    rw [hL]
    have hidx : ds.length - 1 - (i - 1) = ds.length - i := by omega
    rw [hidx, List.getElem?_dropLast]
    have hlt : ds.length - i < (d0 :: ds).length - 1 := by simp; omega
    simp [hlt]
    rw [if_pos ⟨by omega, h1⟩]
  have hbak : ∀ i, 1 ≤ i → i ≤ min ds.length 10 →
      (bakShape
        (min ((d0 :: ds).dropLast.reverse ++ ([] : List α)).length 10)
        ((d0 :: ds).dropLast.reverse ++ ([] : List α)) d0) i
        = some ((d0 :: ds).getD (ds.length - i) d0) := by
    intro i h1 h2
    unfold bakShape
    rw [if_pos ⟨h1, by rw [hPlen]; omega⟩]
    exact congrArg some (hgetD i h1 h2)
  refine ⟨?_, ?_, ?_⟩
  · rw [backupCount_shape _ _ _ _ (by rw [hPlen]; omega), hPlen]
  · intro i h1 h2
    exact hbak i h1 h2
  · intro h12
    have h := hbak 10 (by omega) (by omega)
    rw [h12] at h
    simpa using h

/-- Witness for `backup_generations`: three saves, and the twelve-save
scenario where generation 10 holds the document written by save #2. -/
theorem backup_generations_witness :
    1 ≤ ([1, 2, 3] : List Nat).length
    ∧ backupCount (savesFS (initFS 0) [1, 2, 3]) = min ([1, 2, 3] : List Nat).length 10
    ∧ (savesFS (initFS (0 : Nat)) [1, 2, 3]).bak 1
        = some ((0 :: [1, 2, 3]).getD (([1, 2, 3] : List Nat).length - 1) 0)
    ∧ (savesFS (initFS (0 : Nat)) [1, 2, 3, 4, 5, 6, 7, 8, 9, 10, 11, 12]).bak 10
        = some ((0 :: [1, 2, 3, 4, 5, 6, 7, 8, 9, 10, 11, 12]).getD 2 0) :=
  ⟨by decide, (backup_generations 0 [1, 2, 3] (by decide)).1,
    (backup_generations 0 [1, 2, 3] (by decide)).2.1 1 (by decide) (by decide),
    (backup_generations 0 [1, 2, 3, 4, 5, 6, 7, 8, 9, 10, 11, 12] (by decide)).2.2
      (by decide)⟩

end Launcher
